import Mathlib

/-!
Verification of the songfone server core against its specification.

The Lean definitions below are a shallow embedding of the Python sources
in `server/`: `wants.py`, `conversion.py`, `database.py`, `coverart.py`.
Pure functions become Lean functions; the sqlite tables and the in-memory
cover cache become explicit state values threaded through the operations;
external collaborators (the filesystem listing, the tag extractor, the
image decoder, the hash function) are passed in as oracle parameters.
Python exceptions that can escape a function are modelled with `Except`.
-/

namespace Songfone

/-! ## Shared helpers -/

/-- Python substring test `sub in s` on strings. -/
def containsSub (s sub : String) : Bool :=
  (List.range (s.toList.length + 1)).any (fun i => sub.toList.isPrefixOf (s.toList.drop i))

/-- Python `str.lower` (the sources only ever lower-case ASCII names). -/
def pyLower (s : String) : String := String.mk (s.toList.map Char.toLower)

/-- Python `str.startswith`. -/
def strStartsWith (s pre : String) : Bool := pre.toList.isPrefixOf s.toList

/-- Python `str.endswith`. -/
def strEndsWith (s suf : String) : Bool := suf.toList.isSuffixOf s.toList

/-- `os.path.join` for the POSIX cases used by the program (no drive letters). -/
def pathJoin (a b : String) : String :=
  if a = "" then b
  else if strStartsWith b "/" then b
  else if strEndsWith a "/" then a ++ b
  else a ++ "/" ++ b

/-- Index of the last occurrence of a character in a character list, if any. -/
def rfindIdx (c : Char) (cs : List Char) : Option Nat :=
  match cs.reverse.indexOf? c with
  | none => none
  | some j => some (cs.length - 1 - j)

/-- The root part of `os.path.splitext`: the path up to the extension dot.
The extension dot is the last dot that comes after the last slash and has at
least one non-dot character between the slash and itself (so dotfiles such as
`.bashrc` have no extension), exactly as in CPython `genericpath._splitext`. -/
def splitextRoot (p : String) : String :=
  let cs := p.toList
  let sep : Int := match rfindIdx '/' cs with | none => -1 | some i => (i : Int)
  let dot : Int := match rfindIdx '.' cs with | none => -1 | some i => (i : Int)
  if sep < dot then
    let start := (sep + 1).toNat
    let dotN := dot.toNat
    if ((cs.drop start).take (dotN - start)).any (fun ch => ch != '.') then
      String.mk (cs.take dotN)
    else p
  else p

/-- Python `int()` applied to a non-negative timestamp: truncation toward zero. -/
def pyInt (q : ℚ) : Int := q.num.tdiv (q.den : Int)

/-- Stable insertion used to model Python `list.sort`: `gb x y` means the new
element `x` goes in front of `y`. -/
def insertBy (gb : α → α → Bool) (x : α) : List α → List α
  | [] => [x]
  | y :: ys => if gb x y then x :: y :: ys else y :: insertBy gb x ys

/-- Stable sort modelling Python `list.sort` with a key function: with
`gb x y = (key x ≤ key y)` this is an ascending stable sort, with
`gb x y = (key y ≤ key x)` a descending one (`reverse=True`). -/
def sortBy (gb : α → α → Bool) : List α → List α
  | [] => []
  | x :: xs => insertBy gb x (sortBy gb xs)

theorem mem_insertBy (gb : α → α → Bool) (x a : α) (l : List α) :
    a ∈ insertBy gb x l ↔ a = x ∨ a ∈ l := by
  induction l with
  | nil => simp [insertBy]
  | cons y ys ih =>
    simp only [insertBy]
    by_cases h : gb x y = true
    · simp [h]
    · simp only [h, if_neg]
      simp [List.mem_cons, ih]
      tauto

theorem mem_sortBy (gb : α → α → Bool) (a : α) (l : List α) :
    a ∈ sortBy gb l ↔ a ∈ l := by
  induction l with
  | nil => simp [sortBy]
  | cons x xs ih => simp [sortBy, mem_insertBy, ih]

/-! ## `conversion.py`: the `Conversion` value

`Conversion.__init__` validates the extension against the known codec list and
derives the ffmpeg encoder name; the quality is stored untouched.  The quality
is an arbitrary Python value in the source (the wants file may carry a number
or, erroneously, a string), so it is kept as a `PyVal` here. -/

/-- A Python/JSON value, as produced by `json.load`. -/
inductive PyVal where
  | null : PyVal
  | boolean : Bool → PyVal
  | num : Int → PyVal
  | str : String → PyVal
  | arr : List PyVal → PyVal
  | obj : List (String × PyVal) → PyVal

/-- The Python exceptions that can escape the embedded functions. -/
inductive PyErr where
  | typeError : PyErr
  | keyError : String → PyErr
  | valueError : String → PyErr
  | attributeError : PyErr
  | permissionError : PyErr
deriving DecidableEq, Repr

/-- Python `str()` of the values that can reach `str(bitrate)` in
`Conversion.ffmpeg`.  Containers are abbreviated: no claim evaluates them. -/
def pyStr : PyVal → String
  | .null => "None"
  | .boolean b => if b then "True" else "False"
  | .num n => toString n
  | .str s => s
  | .arr _ => "<list>"
  | .obj _ => "<dict>"

/-- Python `x * 1000` for the wants-file quality value: numbers multiply,
strings and lists replicate, booleans coerce to integers, the rest raise
`TypeError`. -/
def pyMul1000 : PyVal → Except PyErr PyVal
  | .num n => .ok (.num (n * 1000))
  | .str s => .ok (.str (String.join (List.replicate 1000 s)))
  | .boolean b => .ok (.num (if b then 1000 else 0))
  | .arr xs => .ok (.arr (List.flatten (List.replicate 1000 xs)))
  | _ => .error .typeError

def _codecs_ext_eq : List String := ["mp3", "flac", "mp4", "m4a"]

def _codecs_ext_neq : List (String × String) := [("ogg", "libvorbis"), ("opus", "libopus")]

def valid_codecs : List String := _codecs_ext_eq ++ _codecs_ext_neq.map (fun kv => kv.1)

structure Conversion where
  ext : String
  ffmpeg_codec : String
  quality : PyVal

/-- `Conversion.__init__`: lower-case the extension, raise `ValueError` for an
unknown codec, otherwise derive the ffmpeg encoder name. -/
def Conversion.make (ext : String) (quality : PyVal) : Except PyErr Conversion :=
  let e := pyLower ext
  if valid_codecs.contains e then
    .ok { ext := e
          ffmpeg_codec :=
            if _codecs_ext_eq.contains e then e
            else (((_codecs_ext_neq.find? (fun kv => kv.1 == e)).map (fun kv => kv.2)).getD "")
          quality := quality }
  else .error (.valueError ("Unknown audio extension " ++ e))

/-- The argument vector built by `Conversion.ffmpeg` (with `tags=None`). -/
def ffmpegCmd (ffmpegBin src dest codec : String) (bitrate : PyVal) : List String :=
  [ffmpegBin, "-y", "-i", src, "-c:a", codec, "-b:a", pyStr bitrate, dest]

/-! ## `wants.py`: the `Want` value -/

/-- A `Want`, after `Want.__init__` has run.  `path` is the destination path
(the extension already replaced when a conversion is attached); `src_path` is
set only in that case. -/
structure Want where
  audio_dir : String
  path : String
  src_path : Option String
  conversion : Option Conversion

/-- `Want.__init__`: with a conversion attached, the destination path is the
source path with its extension replaced by the conversion extension, and the
original path is kept in `src_path`. -/
def Want.make (audio_dir path : String) (conversion : Option Conversion) : Want :=
  match conversion with
  | none => { audio_dir := audio_dir, path := path, src_path := none, conversion := none }
  | some c =>
      { audio_dir := audio_dir
        path := splitextRoot path ++ "." ++ c.ext
        src_path := some path
        conversion := some c }

/-- `Want.__eq__` on two `Want` values, literally as written in the source:
`self.path == other.path and self.audio_dir == self.audio_dir` (note that the
second conjunct compares `self.audio_dir` with itself). -/
def wantEq (a b : Want) : Bool :=
  a.path == b.path && a.audio_dir == a.audio_dir

/-- `Want.__eq__` against a plain string. -/
def wantEqStr (a : Want) (s : String) : Bool :=
  a.path == s

/-- `Want.__hash__` is `hash(self.path)`, for whatever string hash the Python
runtime uses; the hash function is therefore a parameter. -/
def wantHashWith (h : String → Int) (w : Want) : Int := h w.path

/-- `Conversion.do`: the command vector with which the external transcoder is
invoked for a want (`AttributeError` if the want carries no `src_path`). -/
def Conversion.doCmd (c : Conversion) (ffmpegBin output : String) (w : Want) :
    Except PyErr (List String) :=
  match w.src_path with
  | none => .error .attributeError
  | some sp =>
      .ok (ffmpegCmd ffmpegBin (pathJoin w.audio_dir sp) (pathJoin output w.path)
            c.ffmpeg_codec c.quality)

/-! ## `wants.py`: `get_wants`

The file read and the JSON parse are collaborators; their combined outcome is
a `ReadRes`.  A missing file raises `FileNotFoundError` (caught), an
unreadable one raises `PermissionError` (not caught), an empty or syntactically
invalid file raises `json.JSONDecodeError` (caught).  Whatever parses is a
`PyVal` and is processed by the rest of the function, whose Python dynamic-type
failures are mirrored in `Except`. -/

inductive ReadRes where
  | missing : ReadRes
  | unreadable : ReadRes
  | badJson : ReadRes
  | parsed : PyVal → ReadRes

/-- Python `k in v`: key test on a dict, element equality on a list, substring
test on a string, `TypeError` otherwise. -/
def pyContains (v : PyVal) (k : String) : Except PyErr Bool :=
  match v with
  | .obj kvs => .ok (kvs.any (fun kv => kv.1 == k))
  | .arr xs => .ok (xs.any (fun x => match x with | .str s => s == k | _ => false))
  | .str s => .ok (containsSub s k)
  | _ => .error .typeError

/-- Python `v[k]` for a string key: dict lookup (`KeyError` when absent),
`TypeError` on any non-dict. -/
def pyIndex (v : PyVal) (k : String) : Except PyErr PyVal :=
  match v with
  | .obj kvs =>
      match kvs.find? (fun kv => kv.1 == k) with
      | some kv => .ok kv.2
      | none => .error (.keyError k)
  | _ => .error .typeError

/-- Python `for x in v`: the element sequence of an iterable, `TypeError` for
non-iterables (a string yields its characters, a dict its keys). -/
def pyIter (v : PyVal) : Except PyErr (List PyVal) :=
  match v with
  | .arr xs => .ok xs
  | .str s => .ok (s.toList.map (fun c => PyVal.str (String.singleton c)))
  | .obj kvs => .ok (kvs.map (fun kv => PyVal.str kv.1))
  | _ => .error .typeError

/-- Splitting a character list at the first colon, if any. -/
def splitOnceColonAux : List Char → Option (List Char × List Char)
  | [] => none
  | c :: rest =>
      if c = ':' then some ([], rest)
      else (splitOnceColonAux rest).map (fun p => (c :: p.1, p.2))

/-- `str.split(":", 1)`: the part before the first colon and the rest, if a
colon occurs at all. -/
def splitOnceColon (s : String) : Option (String × String) :=
  (splitOnceColonAux s.toList).map (fun p => (String.mk p.1, String.mk p.2))

/-- `_split_json_want`: `AttributeError` when the entry is not a string,
`ValueError` when it has no colon to unpack at; otherwise the first configured
audio dir whose `path_hash` equals the prefix, or `none` (dropped entry).
`ph` stands in for `database.path_hash` (a sha256-based collaborator). -/
def _split_json_want (audio : List String) (ph : String → String) (v : PyVal) :
    Except PyErr (Option (String × String)) :=
  match v with
  | .str s =>
      match splitOnceColon s with
      | none => .error (.valueError "not enough values to unpack")
      | some (h, rest) =>
          .ok ((audio.find? (fun a => ph a == h)).map (fun a => (a, rest)))
  | _ => .error .attributeError

/-- The body of the first loop of `get_wants` (plain wants). -/
def plainWantStep (audio : List String) (ph : String → String)
    (acc : List Want) (jw : PyVal) : Except PyErr (List Want) := do
  match ← _split_json_want audio ph jw with
  | none => pure acc
  | some (d, p) => pure (acc ++ [Want.make d p none])

/-- The body of the second loop of `get_wants` (conversion groups). -/
def conversionGroupStep (audio : List String) (ph : String → String)
    (acc : List Want) (g : PyVal) : Except PyErr (List Want) := do
  let codec ← pyIndex g "codec"
  let quality ← pyIndex g "quality"
  let q1000 ← pyMul1000 quality
  let codecStr ← match codec with
    | .str s => pure s
    | _ => Except.error PyErr.attributeError
  let conv ← Conversion.make codecStr q1000
  let files ← pyIndex g "files"
  let fitems ← pyIter files
  fitems.foldlM (fun acc2 jw => do
      match ← _split_json_want audio ph jw with
      | none => pure acc2
      | some (d, p) => pure (acc2 ++ [Want.make d p (some conv)])) acc

/-- `get_wants`: returns `[]` for a missing wants file or a JSON parse error;
any other failure escapes as the corresponding Python exception. -/
def get_wants (audio : List String) (ph : String → String) (r : ReadRes) :
    Except PyErr (List Want) :=
  match r with
  | .missing => .ok []
  | .unreadable => .error .permissionError
  | .badJson => .ok []
  | .parsed wants_data => do
      let hasWants ← pyContains wants_data "wants"
      let wantsList ← if hasWants then pyIndex wants_data "wants" else pure (PyVal.arr [])
      let hasWantsAs ← pyContains wants_data "wants_as"
      let wantsAsList ←
        if hasWantsAs then pyIndex wants_data "wants_as" else pure (PyVal.arr [])
      let wantItems ← pyIter wantsList
      let wants1 ← wantItems.foldlM (plainWantStep audio ph) []
      let groups ← pyIter wantsAsList
      groups.foldlM (conversionGroupStep audio ph) wants1

/-! ## `wants.py`: `get_want_diffs`

`have_paths` is a Python set of strings, `want_paths` a Python set of `Want`
values.  A Python set retains the first-inserted element among equals, and
`Want` equality and hashing are keyed on the destination path, so `set(wants)`
deduplicates by destination path keeping the first occurrence; the two set
differences test membership through the reflected `Want.__eq__` against
strings, i.e. again by destination path. -/

/-- One insertion into the Python set `set(wants)`. -/
def pySetInsertWant (acc : List Want) (w : Want) : List Want :=
  if acc.any (fun v => v.path == w.path) then acc else acc ++ [w]

/-- The Python set `set(wants)`. -/
def wantPathsSet (wants : List Want) : List Want := wants.foldl pySetInsertWant []

/-- `get_want_diffs`: the destination listing comes in as the list of relative
paths produced by `list_files_relative` (an external collaborator). -/
def get_want_diffs (havList : List String) (wants : List Want) :
    List String × List Want :=
  let have_paths := havList.dedup
  let want_paths := wantPathsSet wants
  let removed := have_paths.filter (fun s => !(want_paths.any (fun w => w.path == s)))
  let added := want_paths.filter (fun w => !(have_paths.contains w.path))
  (sortBy (fun a b => decide (a ≤ b)) removed,
   sortBy (fun a b => decide (a.path ≤ b.path)) added)

/-! ## Claims C6 -/

/-- C6: `Want` equality holds iff the destination paths are equal, independent
of the source directories and of an attached conversion; the hash is the hash
of the destination path; a conversion-carrying `Want` and a plain `Want`
collide whenever their destination paths agree; and a `Want` compares equal to
exactly the strings equal to its destination path. -/
theorem want_eq_on_dest_path :
    (∀ a b : Want, wantEq a b = true ↔ a.path = b.path)
    ∧ (∀ (h : String → Int) (w : Want), wantHashWith h w = h w.path)
    ∧ (∀ (w : Want) (s : String), wantEqStr w s = true ↔ w.path = s)
    ∧ (∀ (ad1 p1 ad2 p2 : String) (c : Conversion),
        (Want.make ad1 p1 (some c)).path = (Want.make ad2 p2 none).path →
        wantEq (Want.make ad1 p1 (some c)) (Want.make ad2 p2 none) = true) := by
  refine ⟨?_, ?_, ?_, ?_⟩
  · intro a b
    simp [wantEq]
  · intro h w
    rfl
  · intro w s
    simp [wantEqStr]
  · intro ad1 p1 ad2 p2 c h
    simp [wantEq, h]

/-- Concrete instance of `want_eq_on_dest_path`: a `Want` for `x.flac` with an
opus conversion collides with a plain `Want` for `x.opus`. -/
theorem want_eq_on_dest_path_witness :
    wantEq (Want.make "dirA" "x.flac" (some ⟨"opus", "libopus", PyVal.num 128000⟩))
      (Want.make "dirB" "x.opus" none) = true :=
  want_eq_on_dest_path.2.2.2 "dirA" "x.flac" "dirB" "x.opus"
    ⟨"opus", "libopus", PyVal.num 128000⟩ rfl

/-! ## Claim C8 -/

/-- C8 counterexample: `get_wants` does not survive every missing, unreadable
or malformed descriptor.  An unreadable file raises `PermissionError` (only
`FileNotFoundError` and `json.JSONDecodeError` are caught), a well-formed JSON
document of the wrong shape raises `TypeError`, and a want entry without a
colon raises `ValueError` — none of these yield the empty want list. -/
theorem get_wants_uncaught_exceptions_cex :
    get_wants [] (fun _ => "") ReadRes.unreadable = Except.error PyErr.permissionError
    ∧ get_wants [] (fun _ => "") (ReadRes.parsed (PyVal.num 5))
        = Except.error PyErr.typeError
    ∧ get_wants [] (fun _ => "")
        (ReadRes.parsed (PyVal.obj [("wants", PyVal.arr [PyVal.str "nocolon"])]))
        = Except.error (PyErr.valueError "not enough values to unpack") :=
  ⟨rfl, rfl, rfl⟩

/-- C8 (amended): a missing wants file and a file whose content fails JSON
parsing (an empty file included) yield the empty want list without an
exception; but an unreadable file or a well-formed JSON document of an
unexpected shape raises an uncaught exception. -/
theorem get_wants_missing_or_bad_json_empty :
    ∀ (audio : List String) (ph : String → String),
      get_wants audio ph ReadRes.missing = Except.ok []
      ∧ get_wants audio ph ReadRes.badJson = Except.ok []
      ∧ get_wants audio ph ReadRes.unreadable = Except.error PyErr.permissionError :=
  fun _ _ => ⟨rfl, rfl, rfl⟩

/-! ## Claim C1 -/

theorem mem_wantPathsSet_aux (ws : List Want) :
    ∀ (acc : List Want) (w : Want), w ∈ ws.foldl pySetInsertWant acc → w ∈ acc ∨ w ∈ ws := by
  induction ws with
  | nil => exact fun acc w h => Or.inl h
  | cons x xs ih =>
    intro acc w h
    rcases ih (pySetInsertWant acc x) w h with h1 | h1
    · unfold pySetInsertWant at h1
      by_cases hc : acc.any (fun v => v.path == x.path) = true
      · rw [if_pos hc] at h1
        exact Or.inl h1
      · rw [if_neg hc] at h1
        rcases List.mem_append.mp h1 with h2 | h2
        · exact Or.inl h2
        · simp only [List.mem_singleton] at h2
          subst h2
          exact Or.inr (List.mem_cons_self _ _)
    · exact Or.inr (List.mem_cons_of_mem _ h1)

theorem path_mem_pySetInsert (acc : List Want) (x : Want) (p : String) :
    (∃ v ∈ pySetInsertWant acc x, v.path = p)
      ↔ (∃ v ∈ acc, v.path = p) ∨ x.path = p := by
  unfold pySetInsertWant
  by_cases hc : acc.any (fun v => v.path == x.path) = true
  · rw [if_pos hc]
    constructor
    · exact fun h => Or.inl h
    · rintro (h | h)
      · exact h
      · rcases List.any_eq_true.mp hc with ⟨v, hv, hvp⟩
        exact ⟨v, hv, by rw [beq_iff_eq] at hvp; rw [hvp, h]⟩
  · rw [if_neg hc]
    simp only [List.mem_append, List.mem_singleton]
    constructor
    · rintro ⟨v, hv | hv, hp⟩
      · exact Or.inl ⟨v, hv, hp⟩
      · subst hv
        exact Or.inr hp
    · rintro (⟨v, hv, hp⟩ | h)
      · exact ⟨v, Or.inl hv, hp⟩
      · exact ⟨x, Or.inr rfl, h⟩

theorem path_mem_wantPathsSet_aux (ws : List Want) :
    ∀ (acc : List Want) (p : String),
      (∃ v ∈ ws.foldl pySetInsertWant acc, v.path = p)
        ↔ (∃ v ∈ acc, v.path = p) ∨ (∃ v ∈ ws, v.path = p) := by
  induction ws with
  | nil => simp
  | cons x xs ih =>
    intro acc p
    rw [List.foldl_cons, ih, path_mem_pySetInsert]
    simp only [List.mem_cons]
    constructor
    · rintro ((h | h) | ⟨v, hv, hp⟩)
      · exact Or.inl h
      · exact Or.inr ⟨x, Or.inl rfl, h⟩
      · exact Or.inr ⟨v, Or.inr hv, hp⟩
    · rintro (h | ⟨v, hv | hv, hp⟩)
      · exact Or.inl (Or.inl h)
      · subst hv
        exact Or.inl (Or.inr hp)
      · exact Or.inr ⟨v, hv, hp⟩

/-- C1: `get_want_diffs` is the set difference in both directions, keyed on the
destination path: a path is removed iff it is in the destination listing and
no want has it as destination path; a path gains a want in `added` iff some
want has it as destination path and it is absent from the listing; every added
want comes from the want list and is absent from the listing; and `removed` is
disjoint from the destination paths of `added`. -/
theorem want_diffs_set_partition (hav : List String) (wants : List Want) :
    (∀ s, s ∈ (get_want_diffs hav wants).1 ↔ (s ∈ hav ∧ ∀ w ∈ wants, w.path ≠ s))
    ∧ (∀ p, (∃ w ∈ (get_want_diffs hav wants).2, w.path = p)
          ↔ ((∃ w ∈ wants, w.path = p) ∧ p ∉ hav))
    ∧ (∀ w ∈ (get_want_diffs hav wants).2, w ∈ wants ∧ w.path ∉ hav)
    ∧ (∀ s ∈ (get_want_diffs hav wants).1, ∀ w ∈ (get_want_diffs hav wants).2,
        w.path ≠ s) := by
  have hrem : ∀ s, s ∈ (get_want_diffs hav wants).1
      ↔ (s ∈ hav ∧ ∀ w ∈ wants, w.path ≠ s) := by
    intro s
    simp only [get_want_diffs, mem_sortBy, List.mem_filter, List.mem_dedup,
      Bool.not_eq_true', List.any_eq_false, beq_eq_false_iff_ne, ne_eq]
    constructor
    · rintro ⟨hs, hall⟩
      refine ⟨hs, fun w hw hp => ?_⟩
      rcases (path_mem_wantPathsSet_aux wants [] s).mpr (Or.inr ⟨w, hw, hp⟩)
        with ⟨v, hv, hvp⟩
      exact hall v hv (beq_iff_eq.mpr hvp)
    · rintro ⟨hs, hall⟩
      refine ⟨hs, fun v hv hvp => ?_⟩
      rcases mem_wantPathsSet_aux wants [] v hv with h | h
      · simp at h
      · exact hall v h (beq_iff_eq.mp hvp)
  have hadd : ∀ w, w ∈ (get_want_diffs hav wants).2
      ↔ (w ∈ wantPathsSet wants ∧ w.path ∉ hav) := by
    intro w
    simp only [get_want_diffs, mem_sortBy, List.mem_filter, Bool.not_eq_true',
      wantPathsSet]
    rw [← Bool.not_eq_true, List.elem_iff, List.mem_dedup]
  refine ⟨hrem, ?_, ?_, ?_⟩
  · intro p
    constructor
    · rintro ⟨w, hw, hp⟩
      rcases (hadd w).mp hw with ⟨hw1, hw2⟩
      rcases mem_wantPathsSet_aux wants [] w hw1 with h | h
      · simp at h
      · exact ⟨⟨w, h, hp⟩, by rw [← hp]; exact hw2⟩
    · rintro ⟨⟨w, hw, hp⟩, hnot⟩
      rcases (path_mem_wantPathsSet_aux wants [] p).mpr (Or.inr ⟨w, hw, hp⟩)
        with ⟨v, hv, hvp⟩
      exact ⟨v, (hadd v).mpr ⟨hv, by rw [hvp]; exact hnot⟩, hvp⟩
  · intro w hw
    rcases (hadd w).mp hw with ⟨hw1, hw2⟩
    rcases mem_wantPathsSet_aux wants [] w hw1 with h | h
    · simp at h
    · exact ⟨h, hw2⟩
  · intro s hs w hw
    rcases (hrem s).mp hs with ⟨_, hall⟩
    rcases (hadd w).mp hw with ⟨hw1, _⟩
    rcases mem_wantPathsSet_aux wants [] w hw1 with h | h
    · simp at h
    · exact hall w h

/-- Concrete instance of `want_diffs_set_partition`: with destination listing
`[a.mp3, b.mp3]` and wants for `b.mp3` and `c.mp3`, the path `a.mp3` is
removed. -/
theorem want_diffs_set_partition_witness :
    "a.mp3" ∈ (get_want_diffs ["a.mp3", "b.mp3"]
      [Want.make "" "b.mp3" none, Want.make "" "c.mp3" none]).1 :=
  ((want_diffs_set_partition ["a.mp3", "b.mp3"]
      [Want.make "" "b.mp3" none, Want.make "" "c.mp3" none]).1 "a.mp3").mpr
    ⟨by decide, by decide⟩

/-! ## Claim C5 -/

/-- The want descriptor of scenario B: a conversion group with codec `opus`,
quality `128` and one file reference. -/
def opusDescriptor : PyVal :=
  PyVal.obj [("wants_as", PyVal.arr [PyVal.obj
    [("codec", PyVal.str "opus"), ("quality", PyVal.num 128),
     ("files", PyVal.arr [PyVal.str "ab12cd34ef:track.flac"])]])]

/-- The conversion value built from that group: `Conversion("opus", 128 * 1000)`. -/
def opusConversion : Conversion :=
  { ext := "opus", ffmpeg_codec := "libopus", quality := PyVal.num 128000 }

/-- The want produced for the file reference. -/
def opusWant : Want := Want.make "musicdir" "track.flac" (some opusConversion)

/-- C5 counterexample: for the scenario-B descriptor the reconciler does
produce a want whose destination path is `track.opus`, but the external
transcoder is invoked with codec argument `libopus` and bitrate argument
`128000` — no argument of the invocation is the literal `opus` or `128`
promised by the claim. -/
theorem opus_conversion_literal_args_cex :
    get_wants ["musicdir"] (fun _ => "ab12cd34ef") (ReadRes.parsed opusDescriptor)
      = Except.ok [opusWant]
    ∧ opusWant.path = "track.opus"
    ∧ opusConversion.doCmd "ffmpeg" "out" opusWant
      = Except.ok ["ffmpeg", "-y", "-i", "musicdir/track.flac", "-c:a", "libopus",
                   "-b:a", "128000", "out/track.opus"]
    ∧ "opus" ∉ ["ffmpeg", "-y", "-i", "musicdir/track.flac", "-c:a", "libopus",
                "-b:a", "128000", "out/track.opus"]
    ∧ "128" ∉ ["ffmpeg", "-y", "-i", "musicdir/track.flac", "-c:a", "libopus",
               "-b:a", "128000", "out/track.opus"] := by
  refine ⟨rfl, rfl, rfl, by decide, by decide⟩

/-- C5 (amended): for a want descriptor with a conversion group of codec
`opus`, quality `128` and a file reference whose prefix matches a configured
audio directory, the reconciler produces a want whose destination path is
`track.opus`, and fulfilling it invokes the external transcoder with the
ffmpeg encoder `libopus` for the opus codec and the bitrate `128000` bits per
second (the group quality times 1000). -/
theorem opus_conversion_invocation (d bin output : String) (ph : String → String)
    (hph : ph d = "ab12cd34ef") :
    get_wants [d] ph (ReadRes.parsed opusDescriptor)
      = Except.ok [Want.make d "track.flac" (some opusConversion)]
    ∧ (Want.make d "track.flac" (some opusConversion)).path = "track.opus"
    ∧ opusConversion.doCmd bin output (Want.make d "track.flac" (some opusConversion))
      = Except.ok [bin, "-y", "-i", pathJoin d "track.flac", "-c:a", "libopus",
                   "-b:a", "128000", pathJoin output "track.opus"] := by
  have hfind : [d].find? (fun a => ph a == "ab12cd34ef") = some d := by
    simp [List.find?, hph]
  refine ⟨?_, rfl, rfl⟩
  simp [get_wants, opusDescriptor, pyContains, pyIndex, pyIter, pyMul1000,
    Bind.bind, Except.bind, Pure.pure, Except.pure, List.foldlM,
    conversionGroupStep, plainWantStep, _split_json_want, splitOnceColon,
    splitOnceColonAux, Conversion.make, pyLower, valid_codecs, _codecs_ext_eq,
    _codecs_ext_neq, opusConversion, hph, hfind, Want.make]

/-- Concrete instance of `opus_conversion_invocation` at a fixed audio dir,
ffmpeg binary, output dir and hash oracle. -/
theorem opus_conversion_invocation_witness :
    get_wants ["musicdir"] (fun _ => "ab12cd34ef") (ReadRes.parsed opusDescriptor)
      = Except.ok [Want.make "musicdir" "track.flac" (some opusConversion)]
    ∧ (Want.make "musicdir" "track.flac" (some opusConversion)).path = "track.opus"
    ∧ opusConversion.doCmd "ffmpeg" "out"
        (Want.make "musicdir" "track.flac" (some opusConversion))
      = Except.ok ["ffmpeg", "-y", "-i", pathJoin "musicdir" "track.flac", "-c:a",
                   "libopus", "-b:a", "128000", pathJoin "out" "track.opus"] :=
  opus_conversion_invocation "musicdir" "ffmpeg" "out" (fun _ => "ab12cd34ef") rfl

/-! ## `database.py`: `_upsert`

A sqlite table is a list of rows with rowids; a row holds the natural-key
fields (`values` in the source) and the remaining fields (`extra`), the latter
as an `Option` because an insert without `extra` leaves them NULL.  `SELECT`
matching the key finds the first matching row; `UPDATE ... WHERE key` rewrites
the non-key fields of every matching row; `INSERT` appends a row with a fresh
rowid. -/

structure DBTable (K V : Type) where
  rows : List (Nat × K × Option V)
  nextId : Nat

/-- `_upsert`: select by the key fields; when a row exists, update its non-key
fields (if any were passed) and return the existing rowid; otherwise insert
and return the fresh rowid. -/
def _upsert [BEq K] (t : DBTable K V) (k : K) (extra : Option V) : Nat × DBTable K V :=
  match t.rows.find? (fun row => row.2.1 == k) with
  | some r =>
      match extra with
      | some v =>
          (r.1, { rows := t.rows.map (fun s => if s.2.1 == k then (s.1, s.2.1, some v) else s),
                  nextId := t.nextId })
      | none => (r.1, t)
  | none =>
      (t.nextId, { rows := t.rows ++ [(t.nextId, k, extra)], nextId := t.nextId + 1 })

/-! ## Claim C2 -/

/-- C2: when the key fields of an upsert match an existing row, `_upsert`
returns the rowid of the (first) matching row, keeps the list of
(rowid, key) pairs of the table unchanged (so no row is inserted, no identity
regenerated and every row keeps its rowid and key, in order), keeps the next
fresh rowid unchanged, and leaves rows with a different key untouched. -/
theorem upsert_preserves_rowid {K V : Type} [BEq K] [LawfulBEq K]
    (t : DBTable K V) (k : K) (e : Option V) (r : Nat × K × Option V)
    (hfind : t.rows.find? (fun row => row.2.1 == k) = some r) :
    ((_upsert t k e).1 = r.1)
    ∧ ((_upsert t k e).2.rows.map (fun s => (s.1, s.2.1))
        = t.rows.map (fun s => (s.1, s.2.1)))
    ∧ ((_upsert t k e).2.rows.length = t.rows.length)
    ∧ ((_upsert t k e).2.nextId = t.nextId)
    ∧ (∀ s ∈ t.rows, s.2.1 ≠ k → s ∈ (_upsert t k e).2.rows) := by
  unfold _upsert
  rw [hfind]
  match e with
  | none => exact ⟨rfl, rfl, rfl, rfl, fun s hs _ => hs⟩
  | some v =>
      refine ⟨rfl, ?_, by simp, rfl, ?_⟩
      · rw [List.map_map]
        refine List.map_congr_left (fun s _ => ?_)
        by_cases h : s.2.1 == k
        · simp [h]
        · simp [h]
      · intro s hs hne
        have hs2 : (if s.2.1 == k then (s.1, s.2.1, some v) else s) = s := by
          rw [if_neg (by simpa using hne)]
        simpa [hs2] using List.mem_map_of_mem
          (fun s => if s.2.1 == k then (s.1, s.2.1, some v) else s) hs

/-- Concrete instance of `upsert_preserves_rowid` on a two-row table. -/
theorem upsert_preserves_rowid_witness :
    ((_upsert (DBTable.mk [(1, "a", some 10), (2, "b", some 20)] 3) "b" (some 99)).1 = 2)
    ∧ ((_upsert (DBTable.mk [(1, "a", some 10), (2, "b", some 20)] 3) "b"
          (some 99)).2.rows.map (fun s => (s.1, s.2.1))
        = [(1, "a", some 10), (2, "b", some 20)].map (fun s => (s.1, s.2.1)))
    ∧ ((_upsert (DBTable.mk [(1, "a", some 10), (2, "b", some 20)] 3) "b"
          (some 99)).2.rows.length = [(1, "a", some 10), (2, "b", some 20)].length)
    ∧ ((_upsert (DBTable.mk [(1, "a", some 10), (2, "b", some 20)] 3) "b"
          (some 99)).2.nextId = 3)
    ∧ (∀ s ∈ [(1, "a", some 10), (2, "b", some 20)], s.2.1 ≠ "b" →
        s ∈ (_upsert (DBTable.mk [(1, "a", some 10), (2, "b", some 20)] 3) "b"
          (some 99)).2.rows) :=
  upsert_preserves_rowid (V := Nat)
    (DBTable.mk [(1, "a", some 10), (2, "b", some 20)] 3) "b" (some 99)
    (2, "b", some 20) rfl

/-! ## `database.py`: `scan_audio_dir` and `scan_song`

The song/tag/cover tables are modelled concretely.  The tag extractor
(mutagen) and the cover resolution (`CoverArt` plus `get_data`, which touch
the filesystem and the image decoder) enter as oracle parameters; everything
downstream of them — the dict of cleaned tags, the codec derivation, the song
upsert, the tag replacement — is embedded from the source. -/

/-- `os.stat_result` for the fields the scanner reads; `st_mtime` is a float
timestamp, modelled as a rational. -/
structure FileStat where
  st_size : Nat
  st_mtime : ℚ
deriving DecidableEq

structure SongRow where
  rowid : Nat
  audio_dir : Nat
  path : String
  codec : String
  quality : Int
  length_sec : ℚ
  filesize : Nat
  mtime : Int
  cover : Option Nat
deriving DecidableEq

structure TagRow where
  song : Nat
  field : String
  value : String
deriving DecidableEq

structure CoverRow where
  rowid : Nat
  audio_dir : String
  file_path : String
  data : Option (List Nat)
deriving DecidableEq

structure SongDB where
  songs : List SongRow
  tags : List TagRow
  covers : List CoverRow
  nextSongId : Nat
  nextCoverId : Nat
deriving DecidableEq

/-- The outcome of the tag extraction (`MP3(...)` / `mutagen.File(...)`):
a `MutagenError`, a `None` result, or tag data with the MIME hints, the
bitrate when the format reports one, and the duration. -/
inductive ExtractResult where
  | failure : ExtractResult
  | nodata : ExtractResult
  | success : List (String × List String) → List String → Option Int → ℚ → ExtractResult

/-- Replace every occurrence of `pat` (non-overlapping, left to right) by
`rep`, as Python `str.replace`. -/
def replaceAll (pat rep : List Char) : List Char → List Char
  | [] => []
  | c :: rest =>
      if h : pat.isPrefixOf (c :: rest) ∧ pat ≠ [] then
        rep ++ replaceAll pat rep ((c :: rest).drop pat.length)
      else c :: replaceAll pat rep rest
termination_by l => l.length
decreasing_by
  · have hlen : 0 < pat.length := List.length_pos.mpr h.2
    simp only [List.length_drop, List.length_cons]
    omega
  · simp

/-- `mimes_to_codec`: any MIME hint containing an opus marker maps to `opus`;
otherwise the media-type part of the first hint is stripped. -/
def mimes_to_codec (mimes : List String) : String :=
  if mimes.any (fun m => containsSub m "codecs=opus") then "opus"
  else String.mk (replaceAll "audio/".toList [] (mimes.headD "").toList)

/-- The control-character stripping of the first tag value. -/
def cleanValue (s : String) : String :=
  String.mk (s.toList.filter (fun c => 0x20 ≤ c.toNat))

/-- Assignment into the Python `song_tags` dict (later values overwrite). -/
def dictInsert (kvs : List (String × String)) (k v : String) : List (String × String) :=
  if kvs.any (fun kv => kv.1 == k) then
    kvs.map (fun kv => if kv.1 == k then (k, v) else kv)
  else kvs ++ [(k, v)]

/-- The tag loop of `scan_song`: builds the cleaned tag dict and the cover
hints, skipping the reserved field names. -/
def collectSongTags (tags : List (String × List String)) :
    List (String × String) × List String :=
  tags.foldl
    (fun acc tv =>
      let cfv := cleanValue ((tv.2).headD "")
      if ["path", "codec", "filesize", "mtime"].contains tv.1 then acc
      else
        let hints :=
          if ["artist", "album", "album_artist", "albumartist"].contains tv.1 then
            acc.2 ++ tv.2
          else acc.2
        (dictInsert acc.1 tv.1 cfv, hints))
    ([], [])

/-- `_upsert` specialised to the cover table (key `(audio_dir, file_path)`,
non-key field `data`). -/
def coverUpsert (db : SongDB) (audio_dir file_path : String) (data : Option (List Nat)) :
    Nat × SongDB :=
  match db.covers.find? (fun r => r.audio_dir == audio_dir && r.file_path == file_path) with
  | some r =>
      (r.rowid,
       { db with covers := db.covers.map (fun s =>
           if s.audio_dir == audio_dir && s.file_path == file_path then
             { s with data := data }
           else s) })
  | none =>
      (db.nextCoverId,
       { db with covers := db.covers ++ [⟨db.nextCoverId, audio_dir, file_path, data⟩],
                 nextCoverId := db.nextCoverId + 1 })

/-- `scan_song_coverart`: the cover resolution outcome (resolved relative
image path and encoded bytes, or no cover) is an oracle; on a hit the cover
row is upserted and its id returned, a `CoverNotFoundError` yields no id. -/
def scan_song_coverart (db : SongDB) (audio_dir : String)
    (cov : Option (String × Option (List Nat))) : SongDB × Option Nat :=
  match cov with
  | none => (db, none)
  | some (ipath, idata) =>
      let (cid, db2) := coverUpsert db audio_dir ipath idata
      (db2, some cid)

/-- `_upsert` specialised to the song table (key `(audio_dir, path)`). -/
def songUpsert (db : SongDB) (adid : Nat) (p codec : String) (quality : Int)
    (len : ℚ) (fsize : Nat) (mt : Int) (cover : Option Nat) : Nat × SongDB :=
  match db.songs.find? (fun r => r.audio_dir == adid && r.path == p) with
  | some r =>
      (r.rowid,
       { db with songs := db.songs.map (fun s =>
           if s.audio_dir == adid && s.path == p then
             { s with codec := codec, quality := quality, length_sec := len,
                      filesize := fsize, mtime := mt, cover := cover }
           else s) })
  | none =>
      (db.nextSongId,
       { db with songs := db.songs ++
           [⟨db.nextSongId, adid, p, codec, quality, len, fsize, mt, cover⟩],
                 nextSongId := db.nextSongId + 1 })

/-- `scan_song`: extraction failure or a `None` result leaves the database
untouched and reports failure; otherwise the tag dict is built, the cover
resolved and upserted, the song row upserted on `(audio_dir, path)`, the tags
of the previous row id deleted and the new tags inserted. -/
def scan_song (ext : ExtractResult) (cov : Option (String × Option (List Nat)))
    (db : SongDB) (audio_dir : String) (audio_dir_id : Nat) (path : String)
    (stat : FileStat) (prev_song_id : Option Nat) : SongDB × Bool :=
  match ext with
  | .failure => (db, false)
  | .nodata => (db, false)
  | .success tags mime bitrate length =>
      let (song_tags, _cover_hints) := collectSongTags tags
      let (db1, cover_id) := scan_song_coverart db audio_dir cov
      let codec := mimes_to_codec mime
      let quality := bitrate.getD 0
      let (song_id, db2) := songUpsert db1 audio_dir_id path codec quality length
        stat.st_size (pyInt stat.st_mtime) cover_id
      let db3 :=
        match prev_song_id with
        | some pid => { db2 with tags := db2.tags.filter (fun t => t.song ≠ pid) }
        | none => db2
      ({ db3 with tags := db3.tags ++ song_tags.map (fun kv => ⟨song_id, kv.1, kv.2⟩) },
       true)

/-- The body of the file loop of `scan_audio_dir` for one file: look up the
song row by `(audio_dir_id, path)`; when the stored mtime equals the truncated
current mtime and the stored filesize equals the current size, skip the file
(second component `false`: no extraction attempted); otherwise run `scan_song`
with the previous row id, if any. -/
def scanStep (ext : String → ExtractResult)
    (cov : String → Option (String × Option (List Nat)))
    (audio_dir : String) (audio_dir_id : Nat) (db : SongDB)
    (f : String × FileStat) : SongDB × Bool :=
  match db.songs.find? (fun r => r.audio_dir == audio_dir_id && r.path == f.1) with
  | some row =>
      if row.mtime == pyInt f.2.st_mtime && row.filesize == f.2.st_size then
        (db, false)
      else
        ((scan_song (ext (pathJoin audio_dir f.1)) (cov f.1) db audio_dir audio_dir_id
            f.1 f.2 (some row.rowid)).1, true)
  | none =>
      ((scan_song (ext (pathJoin audio_dir f.1)) (cov f.1) db audio_dir audio_dir_id
          f.1 f.2 none).1, true)

/-- The file loop of `scan_audio_dir` over a directory listing. -/
def scan_audio_dir (ext : String → ExtractResult)
    (cov : String → Option (String × Option (List Nat)))
    (audio_dir : String) (audio_dir_id : Nat) (db : SongDB)
    (files : List (String × FileStat)) : SongDB :=
  files.foldl (fun d f => (scanStep ext cov audio_dir audio_dir_id d f).1) db

/-! ## Claim C3 -/

/-- C3: when a song row exists for the file and its stored filesize equals the
current size and its stored mtime equals the truncated current mtime, the scan
step skips the file entirely: no extraction is attempted and the database —
song rows, tag rows and cover rows alike — is returned unchanged; moreover a
whole rescan all of whose files are unchanged in this sense leaves the
database unchanged. -/
theorem scan_skip_unchanged (ext : String → ExtractResult)
    (cov : String → Option (String × Option (List Nat)))
    (audio_dir : String) (audio_dir_id : Nat) (db : SongDB) :
    (∀ (f : String × FileStat) (row : SongRow),
      db.songs.find? (fun r => r.audio_dir == audio_dir_id && r.path == f.1) = some row →
      row.mtime = pyInt f.2.st_mtime →
      row.filesize = f.2.st_size →
      scanStep ext cov audio_dir audio_dir_id db f = (db, false))
    ∧ (∀ (files : List (String × FileStat)),
        (∀ f ∈ files, ∃ row : SongRow,
          db.songs.find? (fun r => r.audio_dir == audio_dir_id && r.path == f.1)
              = some row
          ∧ row.mtime = pyInt f.2.st_mtime ∧ row.filesize = f.2.st_size) →
        scan_audio_dir ext cov audio_dir audio_dir_id db files = db) := by
  have hstep : ∀ (f : String × FileStat) (row : SongRow),
      db.songs.find? (fun r => r.audio_dir == audio_dir_id && r.path == f.1) = some row →
      row.mtime = pyInt f.2.st_mtime →
      row.filesize = f.2.st_size →
      scanStep ext cov audio_dir audio_dir_id db f = (db, false) := by
    intro f row hfind hm hs
    simp only [scanStep, hfind]
    rw [if_pos (by simp [hm, hs])]
  refine ⟨hstep, ?_⟩
  intro files hall
  unfold scan_audio_dir
  induction files with
  | nil => rfl
  | cons f fs ih =>
    rw [List.foldl_cons]
    rcases hall f (List.mem_cons_self _ _) with ⟨row, hfind, hm, hs⟩
    rw [hstep f row hfind hm hs]
    exact ih (fun g hg => hall g (List.mem_cons_of_mem _ hg))

/-- The rational 15/2, as an explicit normalised fraction so that it computes. -/
def sevenPointFive : ℚ := ⟨15, 2, by decide, by decide⟩

/-- Concrete instance of `scan_skip_unchanged`: a database holding one row for
`song.mp3` with size 100 and mtime 7 is untouched by rescanning a listing
with the same stat (current mtime 7.5 truncates to 7). -/
theorem scan_skip_unchanged_witness :
    scanStep (fun _ => ExtractResult.failure) (fun _ => none) "music" 1
      (SongDB.mk [⟨5, 1, "song.mp3", "mp3", 0, 0, 100, 7, none⟩] [] [] 6 1)
      ("song.mp3", ⟨100, sevenPointFive⟩)
    = (SongDB.mk [⟨5, 1, "song.mp3", "mp3", 0, 0, 100, 7, none⟩] [] [] 6 1, false) :=
  (scan_skip_unchanged (fun _ => ExtractResult.failure) (fun _ => none) "music" 1
      (SongDB.mk [⟨5, 1, "song.mp3", "mp3", 0, 0, 100, 7, none⟩] [] [] 6 1)).1
    ("song.mp3", ⟨100, sevenPointFive⟩) ⟨5, 1, "song.mp3", "mp3", 0, 0, 100, 7, none⟩
    (by decide) (by decide) (by decide)

/-! ## `coverart.py`: the cover cache of `CoverArt.__new__`

The `OrderedDict` cache is modelled by its key sequence, least recently used
first.  One construction that resolves to image path `k` either inserts `k` at
the most-recently-used end (miss) or moves it there (`move_to_end` on a hit),
then deletes the first key if the size exceeds the capacity. -/

/-- The cache manipulation of one `CoverArt.__new__` call for resolved image
path `k`, with capacity `cap` (`config.cover_scan_cache_size`). -/
def coverCacheAccess (cap : Nat) (cache : List String) (k : String) : List String :=
  let c := if cache.contains k then cache.erase k ++ [k] else cache ++ [k]
  if cap < c.length then c.drop 1 else c

/-! ## Claim C4 -/

theorem coverCacheAccess_length_le (cap : Nat) (cache : List String) (k : String)
    (hlen : cache.length ≤ cap) : (coverCacheAccess cap cache k).length ≤ cap := by
  unfold coverCacheAccess
  by_cases hc : cache.contains k
  · have hmem : k ∈ cache := by
      rw [← List.elem_iff]
      exact hc
    have hpos : 0 < cache.length := List.length_pos.mpr (List.ne_nil_of_mem hmem)
    have hlen2 : (cache.erase k ++ [k]).length = cache.length := by
      rw [List.length_append, List.length_erase_of_mem hmem]
      simp
      omega
    rw [if_pos hc]
    by_cases hgt : cap < (cache.erase k ++ [k]).length
    · rw [if_pos hgt]
      simp only [List.length_drop]
      omega
    · rw [if_neg hgt]
      omega
  · rw [if_neg hc]
    by_cases hgt : cap < (cache ++ [k]).length
    · rw [if_pos hgt]
      simp only [List.length_drop, List.length_append, List.length_singleton]
      omega
    · rw [if_neg hgt]
      omega

/-- C4: (a) starting from the empty cache, after any sequence of
constructions the cache never holds more than the configured capacity;
(b) when a construction misses on a full non-empty cache, the evicted entry is
exactly the least-recently-used one — the head of the recency order — and the
new key enters at the most-recently-used end; (c) a construction that hits an
existing entry evicts nothing and moves the entry to the most-recently-used
end. -/
theorem cover_cache_lru (cap : Nat) :
    (∀ ks : List String, (ks.foldl (coverCacheAccess cap) []).length ≤ cap)
    ∧ (∀ (cache : List String) (k : String),
        cache.contains k = false → cache.length = cap → cache ≠ [] →
        coverCacheAccess cap cache k = cache.drop 1 ++ [k])
    ∧ (∀ (cache : List String) (k : String),
        cache.contains k = true → cache.length ≤ cap →
        coverCacheAccess cap cache k = cache.erase k ++ [k]) := by
  refine ⟨?_, ?_, ?_⟩
  · intro ks
    have haux : ∀ (l : List String), l.length ≤ cap →
        (ks.foldl (coverCacheAccess cap) l).length ≤ cap := by
      induction ks with
      | nil => exact fun l h => h
      | cons k ks ih =>
        intro l h
        rw [List.foldl_cons]
        exact ih _ (coverCacheAccess_length_le cap l k h)
    exact haux [] (by simp)
  · intro cache k hc hlen hne
    match cache, hne with
    | c :: cs, _ =>
      unfold coverCacheAccess
      rw [hc, if_neg Bool.false_ne_true]
      rw [if_pos (by
        simp only [List.length_append, List.length_cons, List.length_nil] at hlen ⊢
        omega)]
      simp
  · intro cache k hc hlen
    have hmem : k ∈ cache := by
      rw [← List.elem_iff]
      exact hc
    have hpos : 0 < cache.length := List.length_pos.mpr (List.ne_nil_of_mem hmem)
    have hlen2 : (cache.erase k ++ [k]).length = cache.length := by
      simp only [List.length_append, List.length_erase_of_mem hmem,
        List.length_cons, List.length_nil]
      omega
    unfold coverCacheAccess
    rw [if_pos hc, if_neg (by rw [hlen2]; omega)]

/-- Concrete instance of `cover_cache_lru` at capacity 2: a miss on the full
cache `[x, y]` evicts `x` (the least recently used), and a hit on `x` in
`[x, y]` moves it to the most-recently-used end. -/
theorem cover_cache_lru_witness :
    coverCacheAccess 2 ["x", "y"] "z" = ["y", "z"]
    ∧ coverCacheAccess 2 ["x", "y"] "x" = ["y", "x"] := by
  constructor
  · have h := (cover_cache_lru 2).2.1 ["x", "y"] "z" (by decide) (by decide) (by decide)
    rw [h]
    decide
  · have h := (cover_cache_lru 2).2.2 ["x", "y"] "x" (by decide) (by decide)
    rw [h]
    decide

/-! ## `coverart.py`: `CoverArt._search` and `_rate_as_cover_file`

The directory listings of the file directory and of its parent enter as lists
of (filename, filesize) pairs; `hints` are the already lower-cased hint
strings (`CoverArt.__new__` lower-cases them before calling `_search`).
Python floats only carry the constants 0.6, 0.3 and 0.5 and a size ratio
here; the scores are modelled exactly in `ℚ`. -/

/-- `CoverArt.extensions`. -/
def cover_extensions : List String := ["png", "jpeg", "jpg", "bmp", "gif"]

/-- `CoverArt.standard_names`. -/
def standard_names : List String := ["cover", "folder"]

/-- One entry of the `candidates` list of `_search`:
(filepath, filename_lower, filesize). -/
structure Candidate where
  filepath : String
  filename_lower : String
  filesize : Nat
deriving DecidableEq

/-- The inner loop of `_search` over one directory listing: every file whose
lower-cased name ends in a recognised image extension (a bare suffix match,
no dot required) becomes a candidate. -/
def collectCandidates (dir : String) (listing : List (String × Nat)) : List Candidate :=
  listing.filterMap (fun fe =>
    let fl := pyLower fe.1
    if cover_extensions.any (fun e => strEndsWith fl e) then
      some ⟨pathJoin dir fe.1, fl, fe.2⟩
    else none)

/-- The `max_filesize` tracking of `_search` (over the level that was kept). -/
def maxFilesize (cs : List Candidate) : Option Nat :=
  cs.foldl
    (fun m c =>
      match m with
      | none => some c.filesize
      | some v => if v < c.filesize then some c.filesize else some v)
    none

/-- The level loop of `_search`: the file directory first, the parent only
when the file directory yields no candidate, and nothing deeper or wider. -/
def candidatesLoop (file_dir parent_dir : String)
    (fileListing parentListing : List (String × Nat)) : List Candidate :=
  if (collectCandidates file_dir fileListing).isEmpty then
    collectCandidates parent_dir parentListing
  else collectCandidates file_dir fileListing

/-- `_rate_as_cover_file`: 0.6 for a standard cover token, 0.3 per matching
hint, plus half the size ratio against the largest candidate. -/
def _rate_as_cover_file (filename_lower : String) (hints : List String)
    (filesize : Nat) (max_filesize : Nat) : ℚ :=
  let r1 : ℚ := if standard_names.any (fun n => containsSub filename_lower n) then 6 / 10 else 0
  let r2 : ℚ :=
    r1 + ((hints.filter (fun h => containsSub filename_lower h)).length : ℚ) * (3 / 10)
  r2 + ((filesize : ℚ) / (max_filesize : ℚ)) * (5 / 10)

/-- `CoverArt._search`: collect the candidates of the first level that has
any, and unless the largest candidate size is zero (`if candidates and
max_filesize:`), stable-sort them by rating, descending, and return the
filepath of the first.  `sorted(..., reverse=True)` in Python is stable, so
the head of the sort is the earliest-encountered maximal-rating candidate. -/
def _search (file_dir parent_dir : String)
    (fileListing parentListing : List (String × Nat)) (hints : List String) :
    Option String :=
  let cands := candidatesLoop file_dir parent_dir fileListing parentListing
  match maxFilesize cands with
  | none => none
  | some m =>
      if 0 < m then
        match (sortBy (fun a b =>
            decide (_rate_as_cover_file b.filename_lower hints b.filesize m
              ≤ _rate_as_cover_file a.filename_lower hints a.filesize m)) cands).head? with
        | some c => some c.filepath
        | none => none
      else none

/-- The earliest element attaining the maximal value of `r`, specified
recursively: the head wins unless some later element is strictly greater. -/
def firstMaxBy (r : α → ℚ) : List α → Option α
  | [] => none
  | x :: xs =>
      match firstMaxBy r xs with
      | none => some x
      | some b => some (if r x < r b then b else x)

/-- The selection of `_search`, with the sort-then-take-head replaced by the
specified first-maximum choice; `search_eq_spec` below proves the two agree. -/
def searchSpec (file_dir parent_dir : String)
    (fileListing parentListing : List (String × Nat)) (hints : List String) :
    Option String :=
  let cands := candidatesLoop file_dir parent_dir fileListing parentListing
  match maxFilesize cands with
  | none => none
  | some m =>
      if 0 < m then
        match firstMaxBy (fun c =>
            _rate_as_cover_file c.filename_lower hints c.filesize m) cands with
        | some c => some c.filepath
        | none => none
      else none

theorem head_insertBy (gb : α → α → Bool) (x : α) (l : List α) :
    (insertBy gb x l).head?
      = some (match l.head? with
          | none => x
          | some y => if gb x y then x else y) := by
  cases l with
  | nil => rfl
  | cons y ys =>
    simp only [insertBy, List.head?_cons]
    by_cases h : gb x y
    · rw [if_pos h, if_pos h]
      rfl
    · rw [if_neg h, if_neg h]
      rfl

theorem firstMaxBy_eq_none (r : α → ℚ) (l : List α) :
    firstMaxBy r l = none ↔ l = [] := by
  cases l with
  | nil => simp [firstMaxBy]
  | cons x xs =>
    simp only [firstMaxBy]
    cases firstMaxBy r xs <;> simp

theorem head_sortBy_desc (r : α → ℚ) (l : List α) :
    (sortBy (fun a b => decide (r b ≤ r a)) l).head? = firstMaxBy r l := by
  induction l with
  | nil => rfl
  | cons x xs ih =>
    rw [sortBy, head_insertBy, ih]
    cases hfm : firstMaxBy r xs with
    | none => simp only [firstMaxBy, hfm]
    | some b =>
      simp only [firstMaxBy, hfm, decide_eq_true_eq]
      by_cases hle : r b ≤ r x
      · rw [if_pos hle, if_neg (not_lt.mpr hle)]
      · rw [if_neg hle, if_pos (lt_of_not_le hle)]

theorem firstMaxBy_spec (r : α → ℚ) (l : List α) (b : α)
    (h : firstMaxBy r l = some b) :
    b ∈ l ∧ (∀ c ∈ l, r c ≤ r b)
    ∧ ∃ l1 l2, l = l1 ++ b :: l2 ∧ ∀ c ∈ l1, r c < r b := by
  induction l generalizing b with
  | nil => simp [firstMaxBy] at h
  | cons x xs ih =>
    cases hfm : firstMaxBy r xs with
    | none =>
      simp only [firstMaxBy, hfm, Option.some.injEq] at h
      subst h
      have hxs : xs = [] := (firstMaxBy_eq_none r xs).mp hfm
      subst hxs
      exact ⟨List.mem_singleton_self x, by simp, [], [], rfl, by simp⟩
    | some b2 =>
      simp only [firstMaxBy, hfm, Option.some.injEq] at h
      rcases ih b2 hfm with ⟨hmem, hmax, l1, l2, hdec, hlt⟩
      by_cases hx : r x < r b2
      · rw [if_pos hx] at h
        subst h
        refine ⟨List.mem_cons_of_mem _ hmem, ?_, x :: l1, l2, by rw [hdec]; rfl, ?_⟩
        · intro c hc
          rcases List.mem_cons.mp hc with rfl | hc2
          · exact le_of_lt hx
          · exact hmax c hc2
        · intro c hc
          rcases List.mem_cons.mp hc with rfl | hc2
          · exact hx
          · exact hlt c hc2
      · rw [if_neg hx] at h
        subst h
        refine ⟨List.mem_cons_self _ _, ?_, [], xs, rfl, by simp⟩
        intro c hc
        rcases List.mem_cons.mp hc with rfl | hc2
        · exact le_refl _
        · exact le_trans (hmax c hc2) (not_lt.mp hx)

theorem search_eq_spec (fd pd : String) (fl pl : List (String × Nat))
    (hints : List String) :
    _search fd pd fl pl hints = searchSpec fd pd fl pl hints := by
  unfold _search searchSpec
  dsimp only
  cases hmax : maxFilesize (candidatesLoop fd pd fl pl) with
  | none => rfl
  | some m =>
    dsimp only
    by_cases hm : 0 < m
    · rw [if_pos hm, if_pos hm]
      exact congrArg
        (fun o => (match o with | some c => some c.filepath | none => none : Option String))
        (head_sortBy_desc
          (fun c : Candidate => _rate_as_cover_file c.filename_lower hints c.filesize m)
          (candidatesLoop fd pd fl pl))
    · rw [if_neg hm, if_neg hm]

/-! ## Claim C7 -/

/-- C7 counterexample: a first-level candidate whose size is zero defeats the
claim — the level does contain an image candidate (`cover.png`), yet
`_search` selects nothing at all, because `if candidates and max_filesize:`
treats a zero maximal size as falsy. -/
theorem cover_search_zero_size_cex :
    collectCandidates "d" [("cover.png", 0)] ≠ []
    ∧ _search "d" "p" [("cover.png", 0)] [] [] = none := by
  exact ⟨by decide, rfl⟩

/-- C7 (amended): (a) when the file directory yields any image candidate the
parent listing is never consulted (and the search never looks deeper or
wider, its inputs being exactly these two levels); (b) `_search` equals the
specification that picks, among the candidates of the first level that has
any, the earliest-encountered candidate of maximal rating — scored as 0.6 for
a standard cover token, plus 0.3 per lower-cased hint occurring in the
filename, plus 0.5 times the size ratio to the largest candidate — provided
the largest candidate size is nonzero, and selects nothing otherwise;
(c) the first-maximum choice indeed returns a candidate that attains the
maximal rating and every earlier-encountered candidate rates strictly lower. -/
theorem cover_search_first_level_argmax :
    (∀ (fd pd : String) (fl pl pl2 : List (String × Nat)) (hints : List String),
      collectCandidates fd fl ≠ [] →
      _search fd pd fl pl hints = _search fd pd fl pl2 hints)
    ∧ (∀ (fd pd : String) (fl pl : List (String × Nat)) (hints : List String),
        _search fd pd fl pl hints = searchSpec fd pd fl pl hints)
    ∧ (∀ (r : Candidate → ℚ) (l : List Candidate) (b : Candidate),
        firstMaxBy r l = some b →
        b ∈ l ∧ (∀ c ∈ l, r c ≤ r b)
        ∧ ∃ l1 l2, l = l1 ++ b :: l2 ∧ ∀ c ∈ l1, r c < r b) := by
  refine ⟨?_, search_eq_spec, firstMaxBy_spec⟩
  intro fd pd fl pl pl2 hints hne
  cases hcoll : collectCandidates fd fl with
  | nil => exact absurd hcoll hne
  | cons a as => simp [_search, candidatesLoop, hcoll]

/-- Concrete instance of `cover_search_first_level_argmax`: with a candidate
in the file directory the parent listing is ignored, and the first-maximum
choice of a singleton candidate list is that candidate. -/
theorem cover_search_first_level_argmax_witness :
    _search "d" "p" [("folder.png", 10)] [("x.jpg", 5)] []
      = _search "d" "p" [("folder.png", 10)] [] []
    ∧ Candidate.mk "d/folder.png" "folder.png" 10
        ∈ [Candidate.mk "d/folder.png" "folder.png" 10] :=
  ⟨cover_search_first_level_argmax.1 "d" "p" [("folder.png", 10)] [("x.jpg", 5)] []
      [] (by decide),
   (cover_search_first_level_argmax.2.2
      (fun c => _rate_as_cover_file c.filename_lower [] c.filesize 10)
      [Candidate.mk "d/folder.png" "folder.png" 10]
      (Candidate.mk "d/folder.png" "folder.png" 10) rfl).1⟩

/-! ## `coverart.py`: `CoverArt.get_data`

The decode/resize/encode of the image collaborator is an oracle: either it
fills the freshly created buffer with some bytes, or it raises an `OSError`
with some message.  The per-entry state is `self.image_data`
(`none` before the first call).  `get_data` returns the pair (return value,
state after the call). -/

inductive EncodeOutcome where
  | success : List Nat → EncodeOutcome
  | oserror : String → EncodeOutcome

/-- `CoverArt.get_data`: on a memoised buffer return its bytes; otherwise set
the buffer to a fresh empty one and run the decode/encode; on an `OSError`
whose message is about a colour-mode problem convert and save (writing
`fallbackData`); on any other `OSError` log and return `None` — leaving the
empty buffer memoised. -/
def get_data (enc : EncodeOutcome) (fallbackData : List Nat)
    (image_data : Option (List Nat)) : Option (List Nat) × Option (List Nat) :=
  match image_data with
  | some buf => (some buf, some buf)
  | none =>
      match enc with
      | .success d => (some d, some d)
      | .oserror msg =>
          if containsSub msg "cannot write mode" then
            (some fallbackData, some fallbackData)
          else (none, some [])

/-! ## Claim C9 -/

/-- C9: a first `get_data` call whose decode/encode raises an `OSError` not
about colour modes returns `None` yet memoises the empty buffer, and every
subsequent call on that entry returns the empty bytes — whatever the decoder
would now say, since it is never consulted again. -/
theorem get_data_failure_memoized (msg : String) (fallback : List Nat)
    (h : containsSub msg "cannot write mode" = false) :
    get_data (EncodeOutcome.oserror msg) fallback none = (none, some [])
    ∧ (∀ (enc2 : EncodeOutcome) (fb2 : List Nat),
        get_data enc2 fb2 (some []) = (some [], some [])) := by
  constructor
  · simp [get_data, h]
  · intro enc2 fb2
    rfl

/-- Concrete instance of `get_data_failure_memoized` with the truncated-image
message from the source comment. -/
theorem get_data_failure_memoized_witness :
    get_data (EncodeOutcome.oserror "image file is truncated") [1, 2] none
      = (none, some [])
    ∧ get_data (EncodeOutcome.oserror "other") [9] (some []) = (some [], some []) :=
  ⟨(get_data_failure_memoized "image file is truncated" [1, 2] (by decide)).1,
   (get_data_failure_memoized "image file is truncated" [1, 2] (by decide)).2
     (EncodeOutcome.oserror "other") [9]⟩

/-! ## `wants.py`: `remove_unwanted` and `os.removedirs`

The filesystem is a set of file paths and a set of directory paths, each a
list of components.  `os.remove` deletes the file (absence silently ignored);
`os.removedirs(d)` removes `d` if it is an existing empty directory and then
walks upward removing empty ancestors, stopping at the first directory that
is missing or non-empty (the whole call is wrapped in `except OSError: pass`
by `remove_unwanted`, so the first failure also stops it silently). -/

structure FS where
  files : List (List String)
  dirs : List (List String)
deriving DecidableEq

/-- `p` lies strictly under directory `d`. -/
def strictUnder (d p : List String) : Bool :=
  d.isPrefixOf p && decide (d.length < p.length)

/-- A directory is empty when no file and no other directory lies under it. -/
def isEmptyDir (fs : FS) (d : List String) : Bool :=
  !(fs.files.any (fun f => strictUnder d f) || fs.dirs.any (fun s => strictUnder d s))

/-- `os.rmdir` on an existing empty directory. -/
def removeDirFS (fs : FS) (d : List String) : FS :=
  { files := fs.files, dirs := fs.dirs.filter (fun x => x != d) }

/-- The upward walk of `os.removedirs`, driven by the reversed path so that
the recursion is structural: remove the directory while it exists and is
empty, then continue at its parent; stop at the first failure or at the
filesystem root. -/
def removedirsRev (fs : FS) : List String → FS
  | [] => fs
  | x :: rest =>
      if (x :: rest).reverse ∈ fs.dirs ∧ isEmptyDir fs ((x :: rest).reverse) = true then
        removedirsRev (removeDirFS fs ((x :: rest).reverse)) rest
      else fs

/-- `os.removedirs` as called (inside `try ... except OSError: pass`) by
`remove_unwanted`. -/
def removedirs (fs : FS) (d : List String) : FS := removedirsRev fs d.reverse

/-- The loop body of `remove_unwanted` for one removed path `f`: delete
`output ++ f`, then `os.removedirs` on its dirname. -/
def remove_unwanted_one (output : List String) (fs : FS) (f : List String) : FS :=
  removedirs
    { files := fs.files.filter (fun x => x != output ++ f), dirs := fs.dirs }
    (output ++ f).dropLast

/-- `remove_unwanted` over the removed list. -/
def remove_unwanted (output : List String) (fs : FS) (removed : List (List String)) : FS :=
  removed.foldl (remove_unwanted_one output) fs

/-! ## Claim C10 -/

theorem removedirsRev_dirs_subset (rev : List String) :
    ∀ fs : FS, (removedirsRev fs rev).dirs ⊆ fs.dirs := by
  induction rev with
  | nil => exact fun fs a h => h
  | cons x rest ih =>
    intro fs
    unfold removedirsRev
    by_cases hcond :
        (x :: rest).reverse ∈ fs.dirs ∧ isEmptyDir fs ((x :: rest).reverse) = true
    · rw [if_pos hcond]
      intro a ha
      exact List.mem_of_mem_filter (ih (removeDirFS fs ((x :: rest).reverse)) ha)
    · rw [if_neg hcond]
      exact fun a h => h

/-- C10: the pruning of `remove_unwanted` is not bounded by the destination
root.  For a removed file that lies directly under the destination root, the
dirname on which `os.removedirs` is invoked is the root itself; when, after
the file deletion, the root is an existing empty directory, the root is
deleted; and in general the upward walk stops exactly at the first directory
that is missing or non-empty, leaving the filesystem unchanged from there. -/
theorem remove_unwanted_prunes_to_root (output : List String) (fs : FS) (name : String) :
    ((output ++ [name]).dropLast = output)
    ∧ (∀ (fs2 : FS) (d : List String),
        ¬(d ∈ fs2.dirs ∧ isEmptyDir fs2 d = true) → removedirs fs2 d = fs2)
    ∧ (output ≠ [] →
        output ∈ fs.dirs →
        isEmptyDir
          (FS.mk (fs.files.filter (fun x => x != output ++ [name])) fs.dirs) output
          = true →
        output ∉ (remove_unwanted_one output fs [name]).dirs) := by
  refine ⟨List.dropLast_concat, ?_, ?_⟩
  · intro fs2 d hnot
    unfold removedirs
    cases hrev : d.reverse with
    | nil => rfl
    | cons x rest =>
      have hdd : (x :: rest).reverse = d := by
        rw [← hrev, List.reverse_reverse]
      unfold removedirsRev
      rw [if_neg (by rw [hdd]; exact hnot)]
  · intro hne hmem hempty
    obtain ⟨y, rest, hrev⟩ : ∃ y rest, output.reverse = y :: rest := by
      cases houtrev : output.reverse with
      | nil => exact absurd (by simpa using houtrev) hne
      | cons y rest => exact ⟨y, rest, rfl⟩
    have hdd : (y :: rest).reverse = output := by
      rw [← hrev, List.reverse_reverse]
    unfold remove_unwanted_one removedirs
    rw [List.dropLast_concat, hrev]
    unfold removedirsRev
    rw [if_pos (by rw [hdd]; exact ⟨hmem, hempty⟩), hdd]
    intro hcontra
    have h2 := removedirsRev_dirs_subset rest _ hcontra
    have h3 := List.mem_filter.mp h2
    simp at h3

/-- Concrete instance of `remove_unwanted_prunes_to_root`: the destination
root `out` holds only `song.mp3`; removing `song.mp3` deletes the root
directory itself. -/
theorem remove_unwanted_prunes_to_root_witness :
    ((["out"] ++ ["song.mp3"] : List String).dropLast = ["out"])
    ∧ ["out"] ∉ (remove_unwanted_one ["out"]
        (FS.mk [["out", "song.mp3"]] [["out"]]) ["song.mp3"]).dirs :=
  ⟨(remove_unwanted_prunes_to_root ["out"]
      (FS.mk [["out", "song.mp3"]] [["out"]]) "song.mp3").1,
   (remove_unwanted_prunes_to_root ["out"]
      (FS.mk [["out", "song.mp3"]] [["out"]]) "song.mp3").2.2
     (by decide) (by decide) (by decide)⟩

end Songfone
